import Mathlib

/-!
Verification development for the cipher-sleuth repository (Go).

Modelling conventions:
* Go byte slices are modelled as `List Nat` (each entry a byte value < 256).
* Go strings are modelled as `List Nat` of Unicode code points.  the Go
  `for _, r := range s` iterates runes, which for the ASCII data handled by
  the claims coincides with the byte view.  Case-folding helpers
  (`unicode.ToLower`, `strings.ToLower`, `strings.ToUpper`, `unicode.IsLetter`,
  `unicode.IsUpper`) are modelled on the ASCII range, which is exact for every
  input these claims quantify over or evaluate on.
* Go float64 scores are modelled in integer tenths (`Int`, value × 10):
  every individual weight and threshold in the source is a multiple of 0.1
  and hence exact in tenths.  Go, however, accumulates the weights in
  float64, and those sums carry tiny order-dependent roundings, so an exact
  tie between two tenths-valued totals need not be a tie of the float sums
  (and can resolve either way in the program).  Theorems that assert which
  key the XOR sweep selects therefore hypothesise a unique strict maximum,
  a condition robust to such roundings; no claim is made about exact ties.
  The XOR sentinel confidence 1000.0 is returned literally by the source
  (no arithmetic is involved) and is the integer 10000.
* Go `map` values (`Config.MagicBytes`, `Config.HashPatterns`,
  `EncodingChecks`) have randomized iteration order; they are modelled as
  association lists together with an explicit iteration order, quantified or
  instantiated per theorem.
-/

/-- Code points of a string literal, used to write Go string data readably. -/
def strCP (s : String) : List Nat := s.data.map Char.toNat

/-- ASCII lower-casing of one code point (models `unicode.ToLower` /
`strings.ToLower` on the ASCII range). -/
def toLowerCh (c : Nat) : Nat := if 65 ≤ c ∧ c ≤ 90 then c + 32 else c

/-- ASCII upper-casing of one code point (models `strings.ToUpper` on the
ASCII range). -/
def toUpperCh (c : Nat) : Nat := if 97 ≤ c ∧ c ≤ 122 then c - 32 else c

/-- Models `strings.ToLower` on a whole string (ASCII model). -/
def toLowerStr (s : List Nat) : List Nat := s.map toLowerCh

/-- Models `strings.ToUpper` on a whole string (ASCII model). -/
def toUpperStr (s : List Nat) : List Nat := s.map toUpperCh

/-- Models Go `strings.Contains s sub` (byte-wise substring search). -/
def strContains (s sub : List Nat) : Bool :=
  if sub.isPrefixOf s then true
  else
    match s with
    | [] => false
    | _ :: t => strContains t sub

/-- Structure `SolveResult` from solver.go: result of a local decode/attack attempt.
`decodedData` is the decoded text (code points / bytes, see conventions). -/
structure SolveResult where
  success : Bool
  algorithm : String
  decodedData : List Nat
deriving DecidableEq, Repr

/-- One rune of the `Rot13` transform from solver.go: rotate an ASCII letter
by 13 inside its own case alphabet, pass anything else through. -/
def rot13Char (r : Nat) : Nat :=
  if 97 ≤ r ∧ r ≤ 122 then 97 + (r - 97 + 13) % 26
  else if 65 ≤ r ∧ r ≤ 90 then 65 + (r - 65 + 13) % 26
  else r

/-- The string transform inside `Rot13` (solver.go lines 76-89). -/
def rot13Str (input : List Nat) : List Nat := input.map rot13Char

/-- Function `Rot13` of `Solver` from solver.go: always succeeds as a transform. -/
def Rot13 (input : List Nat) : SolveResult :=
  ⟨true, "Rot13", rot13Str input⟩

/-- One rune of a Caesar shift by `shift` (solver.go `BruteForceCaesar` body):
rotate ASCII letters within their case, pass non-letters through. -/
def caesarShiftChar (shift : Nat) (r : Nat) : Nat :=
  if 97 ≤ r ∧ r ≤ 122 then 97 + (r - 97 + shift) % 26
  else if 65 ≤ r ∧ r ≤ 90 then 65 + (r - 65 + shift) % 26
  else r

/-- Caesar shift of a whole string by `shift`. -/
def caesarShift (shift : Nat) (input : List Nat) : List Nat :=
  input.map (caesarShiftChar shift)

/-- The loop of `BruteForceCaesar` (solver.go lines 92-119) over the
remaining shift values: try the current shift, return on the first candidate
containing "picoctf" case-insensitively, otherwise move to the next shift;
fail when the shifts are exhausted. -/
def caesarLoop (input : List Nat) : List Nat → SolveResult
  | [] => ⟨false, "", []⟩
  | shift :: shifts =>
    let candidate := caesarShift shift input
    if strContains (toLowerStr candidate) (strCP "picoctf") then
      ⟨true, "Caesar Cipher (Shift " ++ toString shift ++ ")", candidate⟩
    else
      caesarLoop input shifts

/-- Function `BruteForceCaesar` of `Solver` from solver.go: `for shift := 1; shift < 26`
looking for "picoctf" (case-insensitive). -/
def BruteForceCaesar (input : List Nat) : SolveResult :=
  caesarLoop input (List.range' 1 25)

/-- Spec-side restatement of the Caesar brute force (from spec §4.3): for
shift s in 1..25 accept the first shift whose output contains the
case-insensitive substring "picoctf"; the algorithm name encodes the winning
shift; no match means failure.  Used to compare `BruteForceCaesar` against
the wording of the spec. -/
def caesarFirstShiftSpec (input : List Nat) : SolveResult :=
  match (List.range' 1 25).find?
      (fun s => strContains (toLowerStr (caesarShift s input)) (strCP "picoctf")) with
  | some s => ⟨true, "Caesar Cipher (Shift " ++ toString s ++ ")", caesarShift s input⟩
  | none => ⟨false, "", []⟩

/-- The English-frequency table `englishFreq` from solver_poly.go.  Every
float weight in the source is an exact multiple of 0.1, so scores are
modelled exactly in integer tenths: the entry for a byte is ten times the Go
weight (the source entry e: 12.7 becomes `127`). -/
def englishFreq (b : Nat) : Option Int :=
  if b = 101 then some 127      -- e: 12.7
  else if b = 116 then some 91  -- t: 9.1
  else if b = 97 then some 82   -- a: 8.2
  else if b = 111 then some 75  -- o: 7.5
  else if b = 105 then some 70  -- i: 7.0
  else if b = 110 then some 67  -- n: 6.7
  else if b = 115 then some 63  -- s: 6.3
  else if b = 104 then some 61  -- h: 6.1
  else if b = 114 then some 60  -- r: 6.0
  else if b = 100 then some 43  -- d: 4.3
  else if b = 108 then some 40  -- l: 4.0
  else if b = 117 then some 28  -- u: 2.8
  else if b = 32 then some 150  -- space: 15.0
  else none

/-- Per-byte scoring step of `SolveSingleByteXOR` (solver_poly.go lines
32-41), in tenths: add the frequency weight when the lower-cased byte is
scored, otherwise subtract 10.0 (= 100 tenths) for a non-printable byte that
is not `\n`, `\r`, `\t`.  `byte(unicode.ToLower(rune(dec)))` is modelled by
the ASCII fold `toLowerCh`; for bytes ≥ 128 the Go fold never lands on a scored
key either, so the lookup outcome agrees.  Each single weight is exact; see
`xorScore` for the accumulation caveat. -/
def scoreByte (dec : Nat) : Int :=
  match englishFreq (toLowerCh dec) with
  | some v => v
  | none =>
    if (dec < 32 || dec > 126) && !(dec = 10 || dec = 13 || dec = 9) then -100
    else 0

/-- XOR-decode a byte buffer with a single key byte. -/
def xorDecode (input : List Nat) (key : Nat) : List Nat :=
  input.map (fun b => b ^^^ key)

/-- Total score (in tenths) of the decode of `input` under `key`.  This is
the exact sum of the weights; the source sums them in float64, which may
deviate from the exact value by an order-dependent rounding of well below
0.1 tenths for any realistically sized input, so strict comparisons with a
margin of at least one tenth agree with the program while exact ties need
not (two decodes with equal exact sums can compare either way in float64). -/
def xorScore (input : List Nat) (key : Nat) : Int :=
  ((xorDecode input key).map scoreByte).sum

/-- The "magic check" of solver_poly.go: decoded text contains "picoCTF\x7b"
or "HTB\x7b" (byte-wise `strings.Contains`). -/
def flagHit (s : List Nat) : Bool :=
  strContains s (strCP "picoCTF\x7b") || strContains s (strCP "HTB\x7b")

/-- The sentinel "max confidence" 1000.0 of solver_poly.go line 48, in
tenths. -/
def sentinelScore : Int := 10000

/-- The key loop of `SolveSingleByteXOR` (solver_poly.go lines 22-56) with its
accumulator state `(bestScore, bestRes, bestKey)`: decode and score under each
remaining key, return immediately with the sentinel confidence on a flag hit,
otherwise keep the strictly better score. -/
def solveXORGo (input : List Nat) : List Nat → Int → List Nat → Nat →
    List Nat × Nat × Int
  | [], bestScore, bestRes, bestKey => (bestRes, bestKey, bestScore)
  | k :: ks, bestScore, bestRes, bestKey =>
    let decoded := xorDecode input k
    let score := xorScore input k
    if flagHit decoded then (decoded, k, sentinelScore)
    else if bestScore < score then solveXORGo input ks score decoded k
    else solveXORGo input ks bestScore bestRes bestKey

/-- Function `SolveSingleByteXOR` from solver_poly.go: sweep keys 0..255 starting from
the zero-valued accumulator (`bestScore = 0.0`, `bestRes = ""`,
`bestKey = 0`). -/
def SolveSingleByteXOR (input : List Nat) : List Nat × Nat × Int :=
  solveXORGo input (List.range 256) 0 [] 0

/-- ASCII model of `unicode.IsLetter` (exact on the ASCII range; all
claim inputs are ASCII). -/
def isLetterA (r : Nat) : Bool := (65 ≤ r && r ≤ 90) || (97 ≤ r && r ≤ 122)

/-- ASCII model of `unicode.IsUpper`. -/
def isUpperA (r : Nat) : Bool := 65 ≤ r && r ≤ 90

/-- The rune loop of `vigenereDecrypt` (solver_poly.go lines 83-100), carrying
the key index.  Non-letters are written through without advancing the key
index; letters are shifted back by the aligned key letter; the arithmetic
`base + (r - base - shift + 26) % 26` is done on `Int`, mirroring the Go rune
arithmetic. -/
def vigDecGo (keyRunes : List Nat) : List Nat → Nat → List Nat
  | [], _ => []
  | r :: rest, keyIndex =>
    if isLetterA r then
      let shift : Int := (keyRunes.getD (keyIndex % keyRunes.length) 0 : Int) - 65
      let dec : Nat :=
        if isUpperA r then (65 + ((r : Int) - 65 - shift + 26) % 26).toNat
        else (97 + ((r : Int) - 97 - shift + 26) % 26).toNat
      dec :: vigDecGo keyRunes rest (keyIndex + 1)
    else
      r :: vigDecGo keyRunes rest keyIndex

/-- Function `vigenereDecrypt` from solver_poly.go: decrypt `input` with the
upper-cased `key`, starting at key index 0. -/
def vigenereDecrypt (input key : List Nat) : List Nat :=
  vigDecGo (toUpperStr key) input 0

/-- The embedded dictionary of `SolveVigenere` (solver_poly.go line 64). -/
def vigKeys : List (List Nat) :=
  [strCP "CYLAB", strCP "PICO", strCP "FLAG", strCP "ADMIN", strCP "PASSWORD"]

/-- The key loop of `SolveVigenere` (solver_poly.go lines 66-75): decrypt with
each candidate key in order, accept the first plaintext containing a flag
marker, otherwise return the empty pair. -/
def solveVigGo (input : List Nat) : List (List Nat) → List Nat × List Nat
  | [] => ([], [])
  | k :: ks =>
    let decoded := vigenereDecrypt input k
    if flagHit decoded then (decoded, k) else solveVigGo input ks

/-- Function `SolveVigenere` from solver_poly.go. -/
def SolveVigenere (input : List Nat) : List Nat × List Nat :=
  solveVigGo input vigKeys

/-- The Vigenère encryption loop of `TestVigenereSolver` (main_test.go lines
154-168): the reference encryption of the test used for the round-trip literal.
The key is used as written (the test does not upper-case it). -/
def vigEncGo (keyRunes : List Nat) : List Nat → Nat → List Nat
  | [], _ => []
  | r :: rest, keyIndex =>
    if isLetterA r then
      let shift : Int := (keyRunes.getD (keyIndex % keyRunes.length) 0 : Int) - 65
      let base : Int := if isUpperA r then 65 else 97
      (base + ((r : Int) - base + shift) % 26).toNat :: vigEncGo keyRunes rest (keyIndex + 1)
    else
      r :: vigEncGo keyRunes rest keyIndex

/-- Whole-string form of the Vigenère encryption in the test. -/
def vigenereEncryptTest (pt key : List Nat) : List Nat :=
  vigEncGo key pt 0

/-- Structure `RSAParams` from the RSA solver file: each field is an arbitrary-precision
non-negative integer or absent.  (The value regex only produces unsigned
literals, so `Nat` suffices for parsed values.) -/
structure RSAParams where
  N : Option Nat
  E : Option Nat
  C : Option Nat
deriving DecidableEq, Repr

/-- Whitespace class of the RE2 Perl class `\s` ([\t\n\f\r ]). -/
def isWS (c : Nat) : Bool := c = 9 || c = 10 || c = 12 || c = 13 || c = 32

/-- Go `unicode.IsSpace` for `strings.TrimSpace` (ASCII range plus U+0085 and
U+00A0). -/
def isSpaceGo (c : Nat) : Bool :=
  c = 9 || c = 10 || c = 11 || c = 12 || c = 13 || c = 32 || c = 133 || c = 160

/-- Hex-digit class `[0-9a-f]` under the `(?i)` flag, i.e. `[0-9a-fA-F]`. -/
def isHexDigitCI (c : Nat) : Bool :=
  (48 ≤ c && c ≤ 57) || (97 ≤ c && c ≤ 102) || (65 ≤ c && c ≤ 70)

/-- Length of the longest prefix of `s` satisfying `p` (greedy scan). -/
def countWhile (p : Nat → Bool) : List Nat → Nat
  | [] => 0
  | c :: rest => if p c then countWhile p rest + 1 else 0

/-- Case-insensitive literal prefix test, for the `(?i)` key alternatives. -/
def ciIsPrefix (pat s : List Nat) : Bool :=
  match pat, s with
  | [], _ => true
  | _ :: _, [] => false
  | p :: ps, c :: cs => toLowerCh p = toLowerCh c && ciIsPrefix ps cs

/-- Matches the value part of the parameter regexes from `ParseRSA`,
`\s*[:=]\s*(?:0x)?([0-9a-f]+)` with `(?i)`, at the head of `s`; returns the
number of code points consumed.  The optional `0x` backtracks when no hex
digit follows it, matching leftmost-first regex semantics. -/
def matchValuePart (s : List Nat) : Option Nat :=
  let w1 := countWhile isWS s
  match s.drop w1 with
  | [] => none
  | c :: s2 =>
    if c = 58 || c = 61 then
      let w2 := countWhile isWS s2
      let s3 := s2.drop w2
      match s3 with
      | 48 :: x :: s4 =>
        if x = 120 || x = 88 then
          let n := countWhile isHexDigitCI s4
          if n ≠ 0 then some (w1 + 1 + w2 + 2 + n)
          else
            let n2 := countWhile isHexDigitCI s3
            if n2 ≠ 0 then some (w1 + 1 + w2 + n2) else none
        else
          let n2 := countWhile isHexDigitCI s3
          if n2 ≠ 0 then some (w1 + 1 + w2 + n2) else none
      | _ =>
        let n2 := countWhile isHexDigitCI s3
        if n2 ≠ 0 then some (w1 + 1 + w2 + n2) else none
    else none

/-- Try the key alternatives (in the alternation order of the regex) at the current
position; on a key hit the remainder of the pattern must also match, otherwise
the next alternative is tried. -/
def tryKeysAt (keys : List (List Nat)) (s : List Nat) : Option Nat :=
  match keys with
  | [] => none
  | k :: ks =>
    if ciIsPrefix k s then
      match matchValuePart (s.drop k.length) with
      | some n => some (k.length + n)
      | none => tryKeysAt ks s
    else tryKeysAt ks s

/-- Leftmost-match scan of `FindStringSubmatch`: walk start positions left to
right and return the full matched text `match[0]`. -/
def findKVFrom (keys : List (List Nat)) : List Nat → Option (List Nat)
  | [] => none
  | s =>
    match tryKeysAt keys s with
    | some span => some (s.take span)
    | none =>
      match s with
      | [] => none
      | _ :: rest => findKVFrom keys rest

/-- Models `strings.TrimSpace` (cut `unicode.IsSpace` code points at both ends). -/
def trimSpace (s : List Nat) : List Nat :=
  ((s.dropWhile isSpaceGo).reverse.dropWhile isSpaceGo).reverse

/-- Digit value of `c` in `base`, when valid. -/
def digitVal (base c : Nat) : Option Nat :=
  let v :=
    if 48 ≤ c && c ≤ 57 then some (c - 48)
    else if 97 ≤ c && c ≤ 122 then some (c - 97 + 10)
    else if 65 ≤ c && c ≤ 90 then some (c - 65 + 10)
    else none
  match v with
  | some d => if d < base then some d else none
  | none => none

/-- Accumulator loop for `parseDigits`. -/
def parseDigitsAcc (base : Nat) : List Nat → Nat → Option Nat
  | [], acc => some acc
  | c :: rest, acc =>
    match digitVal base c with
    | some d => parseDigitsAcc base rest (acc * base + d)
    | none => none

/-- Parse a non-empty digit string in `base`, consuming the whole string. -/
def parseDigits (base : Nat) : List Nat → Option Nat
  | [] => none
  | s => parseDigitsAcc base s 0

/-- Models `big.Int.SetString(s, 0)` on the strings reachable from the splitter in `ParseRSA`: detect a `0x`/`0b`/`0o` prefix, a legacy leading-`0` octal, else
decimal.  (Signs and digit-separating underscores cannot occur in a string cut
out of the matched span of the value regex, so they are not modelled.) -/
def setString0 (s : List Nat) : Option Nat :=
  match s with
  | [] => none
  | 48 :: rest =>
    match rest with
    | [] => some 0
    | c :: rest2 =>
      if c = 120 || c = 88 then parseDigits 16 rest2
      else if c = 98 || c = 66 then parseDigits 2 rest2
      else if c = 111 || c = 79 then parseDigits 8 rest2
      else parseDigits 8 rest
  | _ => parseDigits 10 s

/-- The `extract` closure of `ParseRSA`: find the leftmost regex match, split
the matched text on `=` (falling back to `:`), trim the second piece and parse
it with `SetString(…, 0)`. -/
def extractParam (keys : List (List Nat)) (input : List Nat) : Option Nat :=
  match findKVFrom keys input with
  | none => none
  | some rawStr =>
    let parts := rawStr.splitOn 61
    let parts := if parts.length < 2 then rawStr.splitOn 58 else parts
    match parts with
    | _ :: p1 :: _ => setString0 (trimSpace p1)
    | _ => none

/-- Key alternatives of the three parameter regexes (in alternation order). -/
def nKeys : List (List Nat) := [strCP "n", strCP "modulus"]

/-- Key alternatives for the exponent regex. -/
def eKeys : List (List Nat) := [strCP "e", strCP "exponent"]

/-- Key alternatives for the ciphertext regex. -/
def cKeys : List (List Nat) := [strCP "c", strCP "ciphertext"]

/-- Function `ParseRSA` from the RSA solver file: extract N, e, c from free text. -/
def ParseRSA (input : List Nat) : RSAParams :=
  ⟨extractParam nKeys input, extractParam eKeys input, extractParam cKeys input⟩

/-- Big-endian byte representation of a non-negative integer, as produced by
`big.Int.Bytes()` (empty for 0, no leading zero bytes). -/
def bytesBE (n : Nat) : List Nat :=
  if n = 0 then [] else bytesBE (n / 256) ++ [n % 256]

/-- Function `bigIntToString` from the RSA solver file: `string(i.Bytes())`. -/
def bigIntToString (n : Nat) : List Nat := bytesBE n

/-- Binary-search loop of `iroot`: `low`, `high`, `ans` are signed
arbitrary-precision integers as in Go; `mid := (low+high) >> 1` (Go `Rsh`,
arithmetic shift; in every state reachable from `iroot` the sum is
non-negative, where `/ 2` agrees with the shift); `pow := mid^root` compared
with `base`. -/
def irootLoop (base root : Nat) (low high ans : Int) : Int :=
  if low ≤ high then
    let mid := (low + high) / 2
    let pow := mid ^ root
    if pow = (base : Int) then mid
    else if pow < (base : Int) then irootLoop base root (mid + 1) high mid
    else irootLoop base root low (mid - 1) ans
  else ans
termination_by (high + 1 - low).toNat
decreasing_by
  all_goals omega

/-- Function `iroot` from the RSA solver file: integer `root`-th root of `base` by
binary search over `[0, base]`; a root of 1 returns the base directly. -/
def iroot (base root : Nat) : Int :=
  if root = 1 then (base : Int) else irootLoop base root 0 (base : Int) 0

/-- Structure `RSASolveResult`: the RSA solver reuses the Go `SolveResult`; here the
decoded message is raw bytes, so it gets its own byte-typed copy. -/
structure RSASolveResult where
  success : Bool
  algorithm : String
  decodedData : List Nat
deriving DecidableEq, Repr

/-- Function `SolveRSA` from the RSA solver file, modelled at `online = false`: the
FactorDB branch (guarded by `if online`) is never entered, so only the
small-exponent attack is represented.  Missing parameters fail immediately;
when `E < 100000` the integer root and root+1 are both verified by exact
re-exponentiation, the first exact match (candidate order: root, then root+1,
as in the Go slice) is converted to big-endian bytes. -/
def SolveRSA (params : RSAParams) : RSASolveResult :=
  match params.N, params.E, params.C with
  | some _, some e, some c =>
    if e < 100000 then
      let m := iroot c e
      if m ^ e = (c : Int) then
        ⟨true, "RSA Small Exponent (e=" ++ toString e ++ ")", bigIntToString m.toNat⟩
      else if (m + 1) ^ e = (c : Int) then
        ⟨true, "RSA Small Exponent (e=" ++ toString e ++ ")", bigIntToString (m + 1).toNat⟩
      else ⟨false, "", []⟩
    else ⟨false, "", []⟩
  | _, _, _ => ⟨false, "", []⟩

/-- Value of a standard Base64 alphabet character. -/
def b64Val (c : Nat) : Option Nat :=
  if 65 ≤ c && c ≤ 90 then some (c - 65)
  else if 97 ≤ c && c ≤ 122 then some (c - 97 + 26)
  else if 48 ≤ c && c ≤ 57 then some (c - 48 + 52)
  else if c = 43 then some 62
  else if c = 47 then some 63
  else none

/-- Quantum loop of `base64.StdEncoding.DecodeString`: four characters at a
time; the final quantum may carry one or two `=` pads; anything else (stray
length, bad character, padding not at the end) is an error. -/
def b64Quanta : List Nat → Option (List Nat)
  | [] => some []
  | c1 :: c2 :: c3 :: c4 :: rest =>
    match b64Val c1, b64Val c2 with
    | some v1, some v2 =>
      if c3 = 61 then
        if c4 = 61 && rest.isEmpty then some [v1 * 4 + v2 / 16] else none
      else
        match b64Val c3 with
        | some v3 =>
          if c4 = 61 then
            if rest.isEmpty then some [v1 * 4 + v2 / 16, v2 % 16 * 16 + v3 / 4]
            else none
          else
            match b64Val c4 with
            | some v4 =>
              match b64Quanta rest with
              | some tail =>
                some ([v1 * 4 + v2 / 16, v2 % 16 * 16 + v3 / 4,
                       v3 % 4 * 64 + v4] ++ tail)
              | none => none
            | none => none
        | none => none
    | _, _ => none
  | _ => none

/-- Models `base64.StdEncoding.DecodeString`: newline characters (CR, LF) are
ignored, then the padded quanta are decoded. -/
def base64Decode (s : List Nat) : Option (List Nat) :=
  b64Quanta (s.filter (fun c => !(c = 10 || c = 13)))

/-- Hex value of one character, as in `encoding/hex`. -/
def hexVal (c : Nat) : Option Nat :=
  if 48 ≤ c && c ≤ 57 then some (c - 48)
  else if 97 ≤ c && c ≤ 102 then some (c - 97 + 10)
  else if 65 ≤ c && c ≤ 70 then some (c - 65 + 10)
  else none

/-- Models `hex.DecodeString`: pairs of hex digits; odd length or an invalid digit is
an error. -/
def hexDecode : List Nat → Option (List Nat)
  | [] => some []
  | a :: b :: rest =>
    match hexVal a, hexVal b with
    | some x, some y =>
      match hexDecode rest with
      | some tail => some ((x * 16 + y) :: tail)
      | none => none
    | _, _ => none
  | _ => none

/-- Models `url.QueryUnescape`: `%XX` becomes the byte `XX` (two hex digits required,
else an error), `+` becomes a space, everything else is copied. -/
def queryUnescape : List Nat → Option (List Nat)
  | [] => some []
  | 37 :: a :: b :: rest =>
    match hexVal a, hexVal b with
    | some x, some y =>
      match queryUnescape rest with
      | some tail => some ((x * 16 + y) :: tail)
      | none => none
    | _, _ => none
  | 37 :: _ => none
  | 43 :: rest =>
    match queryUnescape rest with
    | some tail => some (32 :: tail)
    | none => none
  | c :: rest =>
    match queryUnescape rest with
    | some tail => some (c :: tail)
    | none => none

/-- Value of a standard Base32 alphabet character (A-Z, 2-7). -/
def b32Val (c : Nat) : Option Nat :=
  if 65 ≤ c && c ≤ 90 then some (c - 65)
  else if 50 ≤ c && c ≤ 55 then some (c - 50 + 26)
  else none

/-- Decode one final Base32 quantum carrying `n` data characters
(`n ∈ {2,4,5,7}` yields 1..4 bytes). -/
def b32Final (vs : List Nat) : Option (List Nat) :=
  match vs with
  | [v1, v2] => some [v1 * 8 + v2 / 4]
  | [v1, v2, v3, v4] => some [v1 * 8 + v2 / 4, v2 % 4 * 64 + v3 * 2 + v4 / 16]
  | [v1, v2, v3, v4, v5] =>
    some [v1 * 8 + v2 / 4, v2 % 4 * 64 + v3 * 2 + v4 / 16, v4 % 16 * 16 + v5 / 2]
  | [v1, v2, v3, v4, v5, v6, v7] =>
    some [v1 * 8 + v2 / 4, v2 % 4 * 64 + v3 * 2 + v4 / 16, v4 % 16 * 16 + v5 / 2,
          v5 % 2 * 128 + v6 * 4 + v7 / 8]
  | _ => none

/-- Quantum loop of `base32.StdEncoding.DecodeString`: eight characters at a
time; the final quantum may end in a run of `=` pads leaving 2, 4, 5 or 7
data characters. -/
def b32Quanta : List Nat → Option (List Nat)
  | [] => some []
  | c1 :: c2 :: c3 :: c4 :: c5 :: c6 :: c7 :: c8 :: rest =>
    let chunk := [c1, c2, c3, c4, c5, c6, c7, c8]
    let dataChars := chunk.takeWhile (fun c => c ≠ 61)
    let pads := chunk.drop dataChars.length
    if pads.all (fun c => c = 61) then
      match (dataChars.map b32Val).allSome with
      | some vs =>
        if pads.isEmpty then
          match vs with
          | [v1, v2, v3, v4, v5, v6, v7, v8] =>
            match b32Quanta rest with
            | some tail =>
              some ([v1 * 8 + v2 / 4, v2 % 4 * 64 + v3 * 2 + v4 / 16,
                     v4 % 16 * 16 + v5 / 2, v5 % 2 * 128 + v6 * 4 + v7 / 8,
                     v7 % 8 * 32 + v8] ++ tail)
            | none => none
          | _ => none
        else
          if rest.isEmpty then b32Final vs else none
      | none => none
    else none
  | _ => none

/-- Models `base32.StdEncoding.DecodeString`: newline characters are ignored, then
the padded quanta are decoded. -/
def base32Decode (s : List Nat) : Option (List Nat) :=
  b32Quanta (s.filter (fun c => !(c = 10 || c = 13)))

/-- Function `isPrintable` from solver.go lines 121-132: every byte in [32,126] or one
of LF, CR, TAB. -/
def isPrintable (data : List Nat) : Bool :=
  data.all (fun b => !(b < 32 && !(b = 10 || b = 13 || b = 9)) && !(b > 126))

/-- Step 5-6 of `TryDecode` (solver.go lines 56-72): the ROT13 transform is
accepted as a solve when it contains "pico" case-insensitively; otherwise the
Caesar brute force is the final local attempt. -/
def tryDecodeRot (input : List Nat) : SolveResult :=
  let rot13 := Rot13 input
  if strContains (toLowerStr rot13.decodedData) (strCP "pico") then rot13
  else
    let caesar := BruteForceCaesar input
    if caesar.success then caesar else ⟨false, "", []⟩

/-- Step 4 of `TryDecode`: Base32 with the printability filter. -/
def tryDecodeB32 (input : List Nat) : SolveResult :=
  match base32Decode input with
  | some data =>
    if isPrintable data then ⟨true, "Base32", data⟩ else tryDecodeRot input
  | none => tryDecodeRot input

/-- Step 3 of `TryDecode`: URL percent-decoding, accepted only when the
decoded string differs from the input. -/
def tryDecodeURL (input : List Nat) : SolveResult :=
  match queryUnescape input with
  | some data =>
    if data ≠ input then ⟨true, "URL Encoding", data⟩ else tryDecodeB32 input
  | none => tryDecodeB32 input

/-- Step 2 of `TryDecode`: hex with the printability filter. -/
def tryDecodeHex (input : List Nat) : SolveResult :=
  match hexDecode input with
  | some data =>
    if isPrintable data then ⟨true, "Hex", data⟩ else tryDecodeURL input
  | none => tryDecodeURL input

/-- Function `TryDecode` of `Solver` from solver.go lines 28-73: Base64, hex, URL,
Base32, ROT13 heuristic, Caesar brute force, strictly in this order,
returning on the first success. -/
def TryDecode (input : List Nat) : SolveResult :=
  match base64Decode input with
  | some data =>
    if isPrintable data then ⟨true, "Base64", data⟩ else tryDecodeHex input
  | none => tryDecodeHex input

/-- Shapes of the hash-format regexes in `Config.HashPatterns` (config.go
lines 14-23): a fixed-length hex string, the Bcrypt shape
`^\$2[ayb]\$.{56}$`, or the Argon2 shape `^\$argon2.*\$.+$`. -/
inductive HashPat where
  | hexLen : Nat → HashPat
  | bcrypt : HashPat
  | argon2 : HashPat
deriving DecidableEq, Repr

/-- Scan of the Argon2 tail `.*\$.+$`: some `$` splits the tail so that the
part before it and the non-empty part after it are both newline-free (`.`
matches any code point except LF). -/
def argonTail : List Nat → Bool
  | [] => false
  | c :: rest =>
    (c = 36 && !rest.isEmpty && rest.all (fun x => x ≠ 10)) ||
    (c ≠ 10 && argonTail rest)

/-- Models `regexp.MatchString` for one hash pattern against the full text. -/
def HashPat.matches : HashPat → List Nat → Bool
  | .hexLen n, s => s.length = n && s.all (fun c => isHexDigitCI c)
  | .bcrypt, s =>
    match s with
    | 36 :: 50 :: c :: 36 :: rest =>
      (c = 97 || c = 121 || c = 98) && rest.length = 56 &&
        rest.all (fun x => x ≠ 10)
    | _ => false
  | .argon2, s =>
    (strCP "$argon2").isPrefixOf s && argonTail (s.drop 7)

/-- Shapes of the `EncodingChecks` regexes (config.go lines 46-52). -/
inductive EncPat where
  | base64 : EncPat
  | base32 : EncPat
  | base58 : EncPat
  | hexp : EncPat
  | urlp : EncPat
deriving DecidableEq, Repr

/-- Base58 alphabet `[1-9A-HJ-NP-Za-km-z]`. -/
def isB58 (c : Nat) : Bool :=
  (49 ≤ c && c ≤ 57) ||
  (65 ≤ c && c ≤ 72) || (74 ≤ c && c ≤ 78) || (80 ≤ c && c ≤ 90) ||
  (97 ≤ c && c ≤ 107) || (109 ≤ c && c ≤ 122)

/-- Pattern `%[0-9a-fA-F]` twice anywhere in the string (the URL check is unanchored). -/
def hasPctHex : List Nat → Bool
  | 37 :: a :: b :: rest =>
    (isHexDigitCI a && isHexDigitCI b) || hasPctHex (a :: b :: rest)
  | _ :: rest => hasPctHex rest
  | [] => false

/-- A body of class characters followed by at most `maxPad` trailing `=`. -/
def classThenPad (cls : Nat → Bool) (maxPad : Nat) (s : List Nat) : Bool :=
  let revPad := s.reverse.takeWhile (fun c => c = 61)
  revPad.length ≤ maxPad && (s.take (s.length - revPad.length)).all cls

/-- Models `regexp.MatchString` for one encoding pattern. -/
def EncPat.matches : EncPat → List Nat → Bool
  | .base64, s =>
    classThenPad (fun c => (65 ≤ c && c ≤ 90) || (97 ≤ c && c ≤ 122) ||
      (48 ≤ c && c ≤ 57) || c = 43 || c = 47) 2 s
  | .base32, s =>
    classThenPad (fun c => (65 ≤ c && c ≤ 90) || (50 ≤ c && c ≤ 55)) 6 s
  | .base58, s => !s.isEmpty && s.all (fun c => isB58 c)
  | .hexp, s => !s.isEmpty && s.all (fun c => isHexDigitCI c)
  | .urlp, s => hasPctHex s

/-- The entries of `Config.MagicBytes` (config.go lines 24-35), written in
source order; the Go map carries no order, so theorems quantify over
permutations of this list. -/
def magicBytesList : List (String × List Nat) :=
  [("PNG", [137, 80, 78, 71]),
   ("JPG", [255, 216, 255]),
   ("ZIP", [80, 75, 3, 4]),
   ("7z", [55, 122, 188, 175]),
   ("TAR", [117, 115, 116, 97, 114]),
   ("ELF", [127, 69, 76, 70]),
   ("LUKS", [76, 85, 75, 83]),
   ("PGP Message", [133])]

/-- The entries of `Config.HashPatterns` (config.go lines 14-23), written in
source order; the Go map carries no order. -/
def hashPatternsList : List (String × HashPat) :=
  [("MD5", .hexLen 32),
   ("SHA1", .hexLen 40),
   ("SHA256", .hexLen 64),
   ("SHA512", .hexLen 128),
   ("RIPEMD-160", .hexLen 40),
   ("NTLM", .hexLen 32),
   ("Bcrypt", .bcrypt),
   ("Argon2", .argon2)]

/-- The entries of `EncodingChecks` (config.go lines 46-52), written in
source order; the Go map carries no order. -/
def encodingChecksList : List (String × EncPat) :=
  [("Base64", .base64),
   ("Base32", .base32),
   ("Base58", .base58),
   ("Hex", .hexp),
   ("URL", .urlp)]

/-- The magic-byte test of the identification step of the orchestrator:
`len(data) >= len(signature) && bytes.Equal(data[:len(signature)], signature)`. -/
def magicMatches (data : List Nat) (p : String × List Nat) : Bool :=
  p.2.length ≤ data.length && data.take p.2.length = p.2

/-- The hash-regex test of the identification step. -/
def hashMatches (data : List Nat) (p : String × HashPat) : Bool :=
  p.2.matches data

/-- The encoding-regex test of the identification step. -/
def encMatches (data : List Nat) (p : String × EncPat) : Bool :=
  p.2.matches data

/-- The identification section of `orchestrate` (lines 74-110 of the
orchestrator file), as a function of the three map iteration orders: magic
bytes first, then hash regexes (only while still "Unknown"), then encoding
regexes (only while still "Unknown"), and finally the unconditional RSA
override when all of N, e, c parse. -/
def identifyWith (magicOrder : List (String × List Nat))
    (hashOrder : List (String × HashPat)) (encOrder : List (String × EncPat))
    (data : List Nat) : String :=
  let t1 :=
    match magicOrder.find? (fun p => magicMatches data p) with
    | some p => "File (" ++ p.1 ++ ")"
    | none => "Unknown"
  let t2 :=
    if t1 = "Unknown" then
      match hashOrder.find? (fun p => hashMatches data p) with
      | some p => "Hash (" ++ p.1 ++ ")"
      | none => t1
    else t1
  let t3 :=
    if t2 = "Unknown" then
      match encOrder.find? (fun p => encMatches data p) with
      | some p => "Encoded Text (" ++ p.1 ++ "?)"
      | none => t2
    else t2
  let rsaParams := ParseRSA data
  if rsaParams.N.isSome && rsaParams.E.isSome && rsaParams.C.isSome then
    "RSA Challenge Data"
  else t3

/-- Models `strings.Contains` on Lean-level strings (used for the checks of the orchestrator on the identification label). -/
def strContainsS (s t : String) : Bool :=
  strContains (strCP s) (strCP t)

/-- Terminal outcomes of one `orchestrate` run (§4.6 of the spec): the depth
limit, the four success returns, or falling through to the passive links. -/
inductive OrchOutcome where
  | depthLimit : OrchOutcome
  | rsaSolved : OrchOutcome
  | xorSolved : OrchOutcome
  | vigSolved : OrchOutcome
  | onlineSolved : OrchOutcome
  | noSolve : OrchOutcome
deriving DecidableEq, Repr

/-- Oracles abstracting the data-dependent tests inside one `orchestrate`
layer.  The control skeleton below is translated from the orchestrator file
lines 65-216; these oracles stand for the parts whose values do not affect
the depth-handling claims: `entropy` is the float64 Shannon entropy (a real
number, abstracted as an arbitrary rational), `identType` the identification
label, `rsaParsed`/`rsaSolved` the `isRSA` test and `SolveRSA` success
(including the online FactorDB path), `localDecode` the `TryDecode` result,
`xorInstant` the `xorScore >= 1000.0` test, `vigHit` the non-empty
`SolveVigenere` result, `lookupOk` the active hash lookup.  Quantifying over
all oracles covers every behaviour of the concrete engines. -/
structure OrchEnv where
  identType : List Nat → String
  entropy : List Nat → ℚ
  rsaParsed : List Nat → Bool
  rsaSolved : List Nat → Bool
  localDecode : List Nat → Option (List Nat)
  xorInstant : List Nat → Bool
  vigHit : List Nat → Bool
  lookupOk : List Nat → Bool

/-- Section 5 of `orchestrate` (online fallback): an active lookup is
attempted only with the online flag, a "Hash" identification and a successful
oracle; otherwise the layer ends with the passive links. -/
def onlineFallback (env : OrchEnv) (idType : String) (data : List Nat)
    (online : Bool) : OrchOutcome :=
  if online && strContainsS idType "Hash" && env.lookupOk data then
    .onlineSolved
  else .noSolve

/-- The recursive `orchestrate` (orchestrator file lines 65-216), returning
the list of depths at which a layer ran its analysis and the terminal
outcome.  Structure: the `depth > 5` guard first; then the RSA hook (success
returns, failure falls through); then the local-solver gate
`depth == 0 || Contains(identifiedType, "Encoded") || entropy < 7.5` with
recursion at `depth+1` on a successful decode; then the poly gate
`identifiedType == "Unknown" || entropy > 3.0` with the XOR instant win and,
only when `entropy < 6.0`, the Vigenère dictionary attack; then the online
fallback. -/
def orchestrate (env : OrchEnv) (data : List Nat) (online : Bool)
    (depth : Nat) : List Nat × OrchOutcome :=
  if depth > 5 then ([], .depthLimit)
  else
    let idType := env.identType data
    if env.rsaParsed data && env.rsaSolved data then ([depth], .rsaSolved)
    else
      match (if depth = 0 || strContainsS idType "Encoded" ||
          env.entropy data < 15 / 2 then env.localDecode data else none) with
      | some decoded =>
        let rest := orchestrate env decoded online (depth + 1)
        (depth :: rest.1, rest.2)
      | none =>
        if idType = "Unknown" || env.entropy data > 3 then
          if env.xorInstant data then ([depth], .xorSolved)
          else if env.entropy data < 6 && env.vigHit data then
            ([depth], .vigSolved)
          else ([depth], onlineFallback env idType data online)
        else ([depth], onlineFallback env idType data online)
termination_by 6 - depth
decreasing_by omega

/-- A degenerate-fixed-point environment: identification answers "Unknown",
entropy 0, no RSA, and the local decode "succeeds" returning its own input
unchanged — the worst case for the recursion bound. -/
def fixpointEnv : OrchEnv :=
  ⟨fun _ => "Unknown", fun _ => 0, fun _ => false, fun _ => false,
   fun d => some d, fun _ => false, fun _ => false, fun _ => false⟩

/-! ### Helper lemmas -/

/-- Lemma: `find?` is the head of the filtered list. -/
theorem find?_eq_head?_filter {α : Type} (p : α → Bool) (l : List α) :
    l.find? p = (l.filter p).head? := by
  induction l with
  | nil => rfl
  | cons a t ih =>
    by_cases h : p a = true
    · rw [List.find?_cons_of_pos _ h, List.filter_cons_of_pos h, List.head?_cons]
    · rw [List.find?_cons_of_neg _ h, List.filter_cons_of_neg h, ih]

/-- Two permuted scan orders give the same first hit when at most one element
passes the predicate. -/
theorem find?_eq_of_perm_of_countP_le_one {α : Type} (p : α → Bool)
    {l1 l2 : List α} (h : l1.Perm l2) (hu : l1.countP p ≤ 1) :
    l1.find? p = l2.find? p := by
  rw [find?_eq_head?_filter, find?_eq_head?_filter]
  have hf : (l1.filter p).Perm (l2.filter p) := h.filter p
  rw [List.countP_eq_length_filter] at hu
  match hl : l1.filter p, hu' : l2.filter p with
  | [], _ =>
    rw [hl] at hf
    rw [← hu', List.Perm.nil_eq hf]
  | [a], _ =>
    rw [hl] at hf
    rw [← hu', (List.perm_singleton.mp hf.symm)]
  | a :: b :: t, _ =>
    rw [hl] at hu
    simp at hu

/-- One character round-trips through two ROT13 rotations. -/
theorem rot13Char_involutive (r : Nat) : rot13Char (rot13Char r) = r := by
  unfold rot13Char
  split_ifs <;> omega

/-- Lemma: `caesarLoop` returns the first shift in its list whose candidate contains
"picoctf" case-insensitively. -/
theorem caesarLoop_eq_find? (input : List Nat) (shifts : List Nat) :
    caesarLoop input shifts =
      match shifts.find?
          (fun s => strContains (toLowerStr (caesarShift s input)) (strCP "picoctf")) with
      | some s => ⟨true, "Caesar Cipher (Shift " ++ toString s ++ ")", caesarShift s input⟩
      | none => ⟨false, "", []⟩ := by
  induction shifts with
  | nil => rfl
  | cons s rest ih =>
    by_cases h : strContains (toLowerStr (caesarShift s input)) (strCP "picoctf")
    · simp [caesarLoop, List.find?, h]
    · simp only [caesarLoop, List.find?, h, ih, Bool.false_eq_true, if_false]

/-- Lemma: `solveVigGo` returns the decode of the first key whose plaintext carries a
flag marker. -/
theorem solveVigGo_eq_find? (input : List Nat) (ks : List (List Nat)) :
    solveVigGo input ks =
      match ks.find? (fun k => flagHit (vigenereDecrypt input k)) with
      | some k => (vigenereDecrypt input k, k)
      | none => ([], []) := by
  induction ks with
  | nil => rfl
  | cons k rest ih =>
    by_cases h : flagHit (vigenereDecrypt input k)
    · simp [solveVigGo, List.find?, h]
    · simp only [solveVigGo, List.find?, h, ih, Bool.false_eq_true, if_false]

/-- When some remaining key decodes to a flag, `solveXORGo` returns that first
key with the sentinel score, whatever the accumulator holds. -/
theorem solveXORGo_flag (input : List Nat) (ks : List Nat) (k0 : Nat) :
    ∀ (bs : Int) (br : List Nat) (bk : Nat),
      ks.find? (fun k => flagHit (xorDecode input k)) = some k0 →
      solveXORGo input ks bs br bk = (xorDecode input k0, k0, sentinelScore) := by
  induction ks with
  | nil => intro bs br bk h; simp [List.find?] at h
  | cons k rest ih =>
    intro bs br bk h
    by_cases hf : flagHit (xorDecode input k)
    · simp only [List.find?, hf] at h
      simp only [Option.some_inj] at h
      subst h
      simp [solveXORGo, hf]
    · simp only [List.find?, hf] at h
      simp only [solveXORGo, hf, Bool.false_eq_true, if_false]
      split_ifs <;> exact ih _ _ _ h

/-- Running-maximum invariant of `solveXORGo` on a strictly increasing key
list with no flag hits: either no remaining key beats the accumulator score
and the accumulator is returned unchanged, or the first remaining key which
beats it at the overall maximum is returned together with its own decode and
score. -/
theorem solveXORGo_best (input : List Nat) :
    ∀ (ks : List Nat) (bs : Int) (br : List Nat) (bk : Nat),
      (∀ k ∈ ks, flagHit (xorDecode input k) = false) →
      List.Pairwise (· < ·) ks →
      ((∀ k ∈ ks, xorScore input k ≤ bs) ∧
        solveXORGo input ks bs br bk = (br, bk, bs)) ∨
      (∃ k ∈ ks, bs < xorScore input k ∧
        solveXORGo input ks bs br bk = (xorDecode input k, k, xorScore input k) ∧
        (∀ j ∈ ks, xorScore input j ≤ xorScore input k) ∧
        (∀ j ∈ ks, j < k → xorScore input j < xorScore input k)) := by
  intro ks
  induction ks with
  | nil =>
    intro bs br bk _ _
    exact Or.inl ⟨by simp, rfl⟩
  | cons k rest ih =>
    intro bs br bk hnf hpw
    have hfk : flagHit (xorDecode input k) = false := hnf k (List.mem_cons_self k rest)
    have hnf' : ∀ j ∈ rest, flagHit (xorDecode input j) = false :=
      fun j hj => hnf j (List.mem_cons_of_mem k hj)
    have hpw' : List.Pairwise (· < ·) rest := hpw.of_cons
    have hklt : ∀ j ∈ rest, k < j := fun j hj => List.rel_of_pairwise_cons hpw hj
    by_cases hlt : bs < xorScore input k
    · have hstep : solveXORGo input (k :: rest) bs br bk =
          solveXORGo input rest (xorScore input k) (xorDecode input k) k := by
        simp [solveXORGo, hfk, hlt]
      rcases ih (xorScore input k) (xorDecode input k) k hnf' hpw' with
        ⟨hall, heq⟩ | ⟨k', hk'm, hgt, heq, hmax, hfirst⟩
      · refine Or.inr ⟨k, List.mem_cons_self k rest, hlt, ?_, ?_, ?_⟩
        · rw [hstep, heq]
        · intro j hj
          rcases List.mem_cons.mp hj with rfl | hj
          · exact le_refl _
          · exact hall j hj
        · intro j hj hjk
          rcases List.mem_cons.mp hj with rfl | hj
          · exact absurd hjk (lt_irrefl j)
          · exact absurd hjk (not_lt.mpr (le_of_lt (hklt j hj)))
      · refine Or.inr ⟨k', List.mem_cons_of_mem k hk'm, lt_trans hlt hgt, ?_, ?_, ?_⟩
        · rw [hstep, heq]
        · intro j hj
          rcases List.mem_cons.mp hj with rfl | hj
          · exact le_of_lt hgt
          · exact hmax j hj
        · intro j hj hjk
          rcases List.mem_cons.mp hj with rfl | hj
          · exact hgt
          · exact hfirst j hj hjk
    · have hstep : solveXORGo input (k :: rest) bs br bk =
          solveXORGo input rest bs br bk := by
        simp [solveXORGo, hfk, hlt]
      rcases ih bs br bk hnf' hpw' with
        ⟨hall, heq⟩ | ⟨k', hk'm, hgt, heq, hmax, hfirst⟩
      · refine Or.inl ⟨?_, by rw [hstep, heq]⟩
        intro j hj
        rcases List.mem_cons.mp hj with rfl | hj
        · exact not_lt.mp hlt
        · exact hall j hj
      · refine Or.inr ⟨k', List.mem_cons_of_mem k hk'm, hgt, ?_, ?_, ?_⟩
        · rw [hstep, heq]
        · intro j hj
          rcases List.mem_cons.mp hj with rfl | hj
          · exact le_of_lt (lt_of_le_of_lt (not_lt.mp hlt) hgt)
          · exact hmax j hj
        · intro j hj hjk
          rcases List.mem_cons.mp hj with rfl | hj
          · exact lt_of_le_of_lt (not_lt.mp hlt) hgt
          · exact hfirst j hj hjk

/-! ### Claim theorems -/

/-- C9: ROT13 is an involution — for every string `x`, applying the `Rot13`
transform twice yields exactly `x`; each ASCII letter is rotated by 13 within
its own case alphabet and every other character passes through unchanged in
both applications. -/
theorem rot13_involution (x : List Nat) :
    (Rot13 (Rot13 x).decodedData).decodedData = x := by
  simp only [Rot13, rot13Str, List.map_map]
  induction x with
  | nil => rfl
  | cons a t ih =>
    simp only [List.map_cons, Function.comp_apply, rot13Char_involutive]
    rw [ih]

/-- C10: `TryDecode` on the empty string reports a successful Base64 solve —
the empty string Base64-decodes to the empty byte sequence, which vacuously
passes the printability filter, so the first branch returns
`Success = true`, `Algorithm = "Base64"`, empty `DecodedData`. -/
theorem tryDecode_empty_base64 : TryDecode [] = ⟨true, "Base64", []⟩ := rfl

set_option maxRecDepth 100000 in
/-- C4 counterexample: on the literal input "qjdpDUG" the Caesar brute force
does succeed with decoded output exactly "picoCTF", but the winning shift it
reports is 25, not 3 — the statement "recovering shift 3" in the claim is false. -/
theorem caesar_shift_three_cex :
    BruteForceCaesar (strCP "qjdpDUG") =
      ⟨true, "Caesar Cipher (Shift 25)", strCP "picoCTF"⟩ ∧
    (BruteForceCaesar (strCP "qjdpDUG")).algorithm ≠ "Caesar Cipher (Shift 3)" := by
  constructor
  · decide
  · decide

set_option maxRecDepth 100000 in
/-- C4 amended: Caesar brute force tries shifts 1..25 and accepts the first
shift whose output contains the case-insensitive substring "picoctf"; on the
literal input "qjdpDUG" it succeeds with decoded output exactly "picoCTF",
recovering decoding shift 25 (the input is "picoCTF" shifted forward by 1,
and the algorithm name encodes the winning shift). -/
theorem caesar_first_shift_correct :
    (∀ input : List Nat, BruteForceCaesar input = caesarFirstShiftSpec input) ∧
    BruteForceCaesar (strCP "qjdpDUG") =
      ⟨true, "Caesar Cipher (Shift 25)", strCP "picoCTF"⟩ := by
  constructor
  · intro input
    exact caesarLoop_eq_find? input (List.range' 1 25)
  · decide

set_option maxRecDepth 100000 in
/-- C6: the Vigenère dictionary attack decrypts with each dictionary key in
order and accepts the first plaintext containing "picoCTF\x7b" or "HTB\x7b";
and the round-trip literal: encrypting "picoCTF\x7btest\x7d" with key "PICO"
by the per-letter algorithm of the test and then calling `SolveVigenere` recovers
key "PICO" and the exact original plaintext. -/
theorem solveVigenere_dictionary_correct :
    (∀ input : List Nat,
      SolveVigenere input =
        match vigKeys.find? (fun k => flagHit (vigenereDecrypt input k)) with
        | some k => (vigenereDecrypt input k, k)
        | none => ([], [])) ∧
    SolveVigenere (vigenereEncryptTest (strCP "picoCTF\x7btest\x7d") (strCP "PICO")) =
      (strCP "picoCTF\x7btest\x7d", strCP "PICO") := by
  constructor
  · intro input
    exact solveVigGo_eq_find? input vigKeys
  · decide

/-- C7: whenever the XOR decode under some key byte contains "picoCTF\x7b" or
"HTB\x7b", `SolveSingleByteXOR` returns immediately at the first such key in
the 0..255 sweep, with that decoded text, that key, and exactly the sentinel
confidence 1000.0 (represented in tenths as `sentinelScore = 10000`),
bypassing the score comparison. -/
theorem solveXOR_instant_win (input : List Nat) (k0 : Nat)
    (h : (List.range 256).find? (fun k => flagHit (xorDecode input k)) = some k0) :
    SolveSingleByteXOR input = (xorDecode input k0, k0, sentinelScore) :=
  solveXORGo_flag input (List.range 256) k0 0 [] 0 h

set_option maxRecDepth 100000 in
/-- C7 witness: "picoCTF\x7bxor\x7d" XOR-encrypted with key 0x42 is solved
with key 0x42, the original text, and the sentinel confidence (1000.0, that
is 10000 tenths, which is ≥ the threshold). -/
theorem solveXOR_instant_win_witness :
    SolveSingleByteXOR (xorDecode (strCP "picoCTF\x7bxor\x7d") 66) =
      (strCP "picoCTF\x7bxor\x7d", 66, 10000) := by
  have h : (List.range 256).find?
      (fun k => flagHit (xorDecode (xorDecode (strCP "picoCTF\x7bxor\x7d") 66) k)) =
      some 66 := by decide
  have h2 := solveXOR_instant_win (xorDecode (strCP "picoCTF\x7bxor\x7d") 66) 66 h
  rw [show xorDecode (xorDecode (strCP "picoCTF\x7bxor\x7d") 66) 66 =
      strCP "picoCTF\x7bxor\x7d" from by decide] at h2
  exact h2

set_option maxRecDepth 100000 in
/-- C3 counterexample: on the input bytes `[0x00, 0x80, 0x01, 0x81]` no decode
under any key contains a flag marker, yet every key scores below the initial 0.0
accumulator, so `SolveSingleByteXOR` returns the untouched zero accumulator
`("", 0, 0.0)`: the returned text is not the input XORed with the returned
key (and the returned score is not the score of that decode), refuting the
claim.  Every key scores at most -3 tenths here, a margin far beyond float64
rounding, so the refutation holds of the float64 program as well. -/
theorem solveXOR_zero_accumulator_cex :
    (∀ k ∈ List.range 256, flagHit (xorDecode [0, 128, 1, 129] k) = false) ∧
    SolveSingleByteXOR [0, 128, 1, 129] = ([], 0, 0) ∧
    xorDecode [0, 128, 1, 129] 0 ≠ [] ∧
    xorScore [0, 128, 1, 129] 0 ≠ 0 := by
  refine ⟨by decide, by decide, by decide, by decide⟩

/-- C3 amended: when no decode of any key contains "picoCTF\x7b" or
"HTB\x7b" and some key attains a strictly positive score that is strictly
higher than the score of every other key, `SolveSingleByteXOR` returns
exactly that key together with its decode (the input XORed with that key)
and the computed score of that decode.  (When every key scores ≤ 0, the
zero-valued initial accumulator `("", 0, 0.0)` is returned instead — the
counterexample above.  When two distinct keys tie exactly, the program
resolves the tie through the order-dependent float64 rounding of the two
sums, so no selection is claimed for exact ties; the unique-strict-maximum
hypothesis is robust to those roundings, whose size is far below the
one-tenth granularity of the exact scores.) -/
theorem solveXOR_unique_max (input : List Nat) (kbest : Nat)
    (hmem : kbest ∈ List.range 256)
    (hnf : ∀ k ∈ List.range 256, flagHit (xorDecode input k) = false)
    (hpos : 0 < xorScore input kbest)
    (huniq : ∀ j ∈ List.range 256, j ≠ kbest →
      xorScore input j < xorScore input kbest) :
    SolveSingleByteXOR input =
      (xorDecode input kbest, kbest, xorScore input kbest) := by
  rcases solveXORGo_best input (List.range 256) 0 [] 0 hnf
      (List.pairwise_lt_range 256) with ⟨hall, _⟩ | ⟨k, hkmem, _, heq, hmax, _⟩
  · exact absurd (hall kbest hmem) (not_le.mpr hpos)
  · have hk : k = kbest := by
      by_contra hne
      exact absurd (hmax kbest hmem) (not_le.mpr (huniq k hkmem hne))
    subst hk
    exact heq

set_option maxRecDepth 100000 in
/-- C3 witness: on the ASCII input "attack at dawn" no decode carries a flag
marker and key 0 attains the strictly positive score 101.1 (1011 tenths),
strictly above every other key, so the sweep returns the input itself with
key 0 and that score. -/
theorem solveXOR_unique_max_witness :
    SolveSingleByteXOR (strCP "attack at dawn") =
      (xorDecode (strCP "attack at dawn") 0, 0,
        xorScore (strCP "attack at dawn") 0) :=
  solveXOR_unique_max (strCP "attack at dawn") 0 (by decide) (by decide)
    (by decide) (by decide)

/-- Depth bookkeeping of one `orchestrate` run: the analysed layers are the
consecutive depths starting at the entry depth, there are at most `6 - depth`
of them, and a call entered beyond the limit does nothing. -/
theorem orchestrate_spec (env : OrchEnv) (online : Bool) :
    ∀ (n depth : Nat) (data : List Nat), 6 - depth ≤ n →
      (orchestrate env data online depth).1 =
        List.range' depth (orchestrate env data online depth).1.length ∧
      (orchestrate env data online depth).1.length ≤ 6 - depth ∧
      (5 < depth → orchestrate env data online depth = ([], .depthLimit)) := by
  intro n
  induction n with
  | zero =>
    intro depth data hn
    have hd : 5 < depth := by omega
    rw [orchestrate]
    simp [hd]
  | succ n ihn =>
    intro depth data hn
    by_cases hd : 5 < depth
    · rw [orchestrate]
      simp [hd]
    · rw [orchestrate]
      simp only [hd, if_false]
      split
      · simp [List.range', hd]
        omega
      · split
        · rename_i decoded hdec
          have hrec := ihn (depth + 1) decoded (by omega)
          refine ⟨?_, ?_, fun h => h.elim⟩
          · simp only [List.length_cons]
            rw [List.range']
            rw [← hrec.1]
          · simp only [List.length_cons]
            have := hrec.2.1
            omega
        · split_ifs <;> simp [List.range', hd] <;> omega

/-- Under the degenerate fixed-point environment every layer below the limit
"decodes" successfully into itself and recurses one level deeper. -/
theorem orchestrate_fixpoint_step (data : List Nat) (online : Bool)
    (depth : Nat) (hd : depth ≤ 5) :
    orchestrate fixpointEnv data online depth =
      ((depth :: (orchestrate fixpointEnv data online (depth + 1)).1),
        (orchestrate fixpointEnv data online (depth + 1)).2) := by
  rw [orchestrate]
  have h1 : ¬5 < depth := by omega
  have h2 : (0 : ℚ) < 15 / 2 := by norm_num
  simp [fixpointEnv, h1, h2]

/-- Beyond the limit the orchestrator does nothing. -/
theorem orchestrate_limit (env : OrchEnv) (data : List Nat) (online : Bool)
    (depth : Nat) (hd : 5 < depth) :
    orchestrate env data online depth = ([], .depthLimit) := by
  rw [orchestrate]
  simp [hd]

/-- C8: for every environment, input, online flag and starting depth the
orchestrator terminates with its analysed layers forming the consecutive
depth sequence from the entry depth, at most `6 - depth` (hence at most 6)
layers deep; a call entered with depth > 5 performs no analysis at all; and
under the degenerate fixed point (a decode step that returns its own input
unchanged) a run from depth 0 analyses exactly layers 0..5 and ends at the
depth limit. -/
theorem orchestrate_depth_bounded :
    (∀ (env : OrchEnv) (data : List Nat) (online : Bool) (depth : Nat),
      (orchestrate env data online depth).1 =
        List.range' depth (orchestrate env data online depth).1.length ∧
      (orchestrate env data online depth).1.length ≤ 6 - depth ∧
      (5 < depth → orchestrate env data online depth = ([], .depthLimit))) ∧
    (∀ (data : List Nat) (online : Bool),
      orchestrate fixpointEnv data online 0 = ([0, 1, 2, 3, 4, 5], .depthLimit)) := by
  constructor
  · intro env data online depth
    exact orchestrate_spec env online (6 - depth) depth data le_rfl
  · intro data online
    have h0 := orchestrate_fixpoint_step data online 0 (by omega)
    have h1 := orchestrate_fixpoint_step data online 1 (by omega)
    have h2 := orchestrate_fixpoint_step data online 2 (by omega)
    have h3 := orchestrate_fixpoint_step data online 3 (by omega)
    have h4 := orchestrate_fixpoint_step data online 4 (by omega)
    have h5 := orchestrate_fixpoint_step data online 5 (by omega)
    have h6 := orchestrate_limit fixpointEnv data online 6 (by omega)
    norm_num at h0 h1 h2 h3 h4 h5
    rw [h0, h1, h2, h3, h4, h5, h6]

/-- The binary-search loop never returns a negative value when entered with a
non-negative lower bound and accumulator. -/
theorem irootLoop_nonneg (base root : Nat) :
    ∀ (n : Nat) (low high ans : Int), (high + 1 - low).toNat ≤ n →
      0 ≤ low → 0 ≤ ans → 0 ≤ irootLoop base root low high ans := by
  intro n
  induction n with
  | zero =>
    intro low high ans hn h0 hans
    rw [irootLoop, if_neg (by omega)]
    exact hans
  | succ n ihn =>
    intro low high ans hn h0 hans
    by_cases hlh : low ≤ high
    · rw [irootLoop, if_pos hlh]
      dsimp only
      split_ifs with h1 h2
      · omega
      · exact ihn _ _ _ (by omega) (by omega) (by omega)
      · exact ihn _ _ _ (by omega) h0 hans
    · rw [irootLoop, if_neg hlh]
      exact hans

/-- When `base` is an exact `root`-th power of a non-negative `m` lying inside
the search window, the binary-search loop returns exactly `m`. -/
theorem irootLoop_exact (base root : Nat) (hroot : root ≠ 0) (m : Int)
    (hm0 : 0 ≤ m) (hm : m ^ root = (base : Int)) :
    ∀ (n : Nat) (low high ans : Int), (high + 1 - low).toNat ≤ n →
      0 ≤ low → low ≤ m → m ≤ high → irootLoop base root low high ans = m := by
  intro n
  induction n with
  | zero =>
    intro low high ans hn h0 hlm hmh
    omega
  | succ n ihn =>
    intro low high ans hn h0 hlm hmh
    have hlh : low ≤ high := le_trans hlm hmh
    rw [irootLoop, if_pos hlh]
    dsimp only
    split_ifs with h1 h2
    · -- the probe hit the exact power: the probe is m by injectivity
      have hmid0 : 0 ≤ (low + high) / 2 := by omega
      have hcast : (((low + high) / 2).toNat : Int) = (low + high) / 2 :=
        Int.toNat_of_nonneg hmid0
      have hcastm : ((m.toNat : Int)) = m := Int.toNat_of_nonneg hm0
      have hpow : ((low + high) / 2).toNat ^ root = m.toNat ^ root := by
        have h' : ((((low + high) / 2).toNat ^ root : Nat) : Int) =
            ((m.toNat ^ root : Nat) : Int) := by
          push_cast [hcast, hcastm]
          rw [h1, hm]
        exact_mod_cast h'
      have := Nat.pow_left_injective hroot hpow
      omega
    · -- probe too small: m lies strictly above it
      have hmid0 : 0 ≤ (low + high) / 2 := by omega
      have hlt : (low + high) / 2 < m := by
        by_contra hge
        push_neg at hge
        have hle : m ^ root ≤ ((low + high) / 2) ^ root :=
          pow_le_pow_left₀ hm0 hge root
        linarith
      exact ihn _ _ _ (by omega) (by omega) (by omega) hmh
    · -- probe too big: m lies strictly below it
      have hmid0 : 0 ≤ (low + high) / 2 := by omega
      have hgt : (base : Int) < ((low + high) / 2) ^ root :=
        lt_of_le_of_ne (not_lt.mp h2) (Ne.symm h1)
      have hlt : m < (low + high) / 2 := by
        by_contra hge
        push_neg at hge
        have hle : ((low + high) / 2) ^ root ≤ m ^ root :=
          pow_le_pow_left₀ hmid0 hge root
        linarith
      exact ihn _ _ _ (by omega) h0 hlm (by omega)

/-- Lemma: `iroot` is never negative. -/
theorem iroot_nonneg (base root : Nat) : 0 ≤ iroot base root := by
  unfold iroot
  split_ifs
  · exact Int.natCast_nonneg base
  · exact irootLoop_nonneg base root _ 0 (base : Int) 0 le_rfl le_rfl le_rfl

/-- Lemma: `iroot` returns the exact root of a perfect `root`-th power. -/
theorem iroot_exact (base root : Nat) (hroot : root ≠ 0) (m : Nat)
    (hm : m ^ root = base) : iroot base root = (m : Int) := by
  unfold iroot
  by_cases h1 : root = 1
  · subst h1
    rw [if_pos rfl]
    rw [pow_one] at hm
    exact_mod_cast congrArg (Nat.cast : Nat → Int) hm.symm
  · rw [if_neg h1]
    have hmcast : ((m : Int)) ^ root = (base : Int) := by exact_mod_cast hm
    have hmbase : m ≤ base := hm ▸ Nat.le_self_pow hroot m
    exact irootLoop_exact base root hroot (m : Int) (Int.natCast_nonneg m)
      hmcast ((base : Int) + 1 - 0).toNat 0 (base : Int) 0 le_rfl le_rfl
      (by exact_mod_cast Nat.zero_le m) (by exact_mod_cast hmbase)

/-- C5: with all three parameters present, `1 ≤ E < 100000`, and online
attacks disabled (the model fixes `online = false`), `SolveRSA` succeeds
exactly when `C` is a perfect `E`-th power `m^E` of a non-negative integer
`m`, and on success the decoded message is the big-endian byte representation
of `m`. -/
theorem solveRSA_small_exponent_correct (N E C : Nat) (hE1 : 1 ≤ E)
    (hE2 : E < 100000) :
    ((SolveRSA ⟨some N, some E, some C⟩).success = true ↔ ∃ m : Nat, m ^ E = C) ∧
    (∀ m : Nat, m ^ E = C →
      SolveRSA ⟨some N, some E, some C⟩ =
        ⟨true, "RSA Small Exponent (e=" ++ toString E ++ ")", bigIntToString m⟩) := by
  have key : ∀ m : Nat, m ^ E = C →
      SolveRSA ⟨some N, some E, some C⟩ =
        ⟨true, "RSA Small Exponent (e=" ++ toString E ++ ")", bigIntToString m⟩ := by
    intro m hm
    have hr : iroot C E = (m : Int) := iroot_exact C E (by omega) m hm
    have hch : ((m : Int)) ^ E = (C : Int) := by exact_mod_cast hm
    simp only [SolveRSA]
    rw [if_pos hE2, hr, if_pos hch]
    simp
  refine ⟨⟨?_, ?_⟩, key⟩
  · intro hs
    by_contra hne
    push_neg at hne
    have h0 : 0 ≤ iroot C E := iroot_nonneg C E
    have h1 : ¬(iroot C E ^ E = (C : Int)) := by
      intro h
      apply hne (iroot C E).toNat
      have hc : (((iroot C E).toNat : Int)) = iroot C E := Int.toNat_of_nonneg h0
      have : (((iroot C E).toNat : Int)) ^ E = (C : Int) := by rw [hc]; exact h
      exact_mod_cast this
    have h2 : ¬((iroot C E + 1) ^ E = (C : Int)) := by
      intro h
      apply hne (iroot C E + 1).toNat
      have hc : (((iroot C E + 1).toNat : Int)) = iroot C E + 1 :=
        Int.toNat_of_nonneg (by omega)
      have : (((iroot C E + 1).toNat : Int)) ^ E = (C : Int) := by rw [hc]; exact h
      exact_mod_cast this
    have hfail : SolveRSA ⟨some N, some E, some C⟩ = ⟨false, "", []⟩ := by
      simp only [SolveRSA]
      rw [if_pos hE2, if_neg h1, if_neg h2]
    rw [hfail] at hs
    simp at hs
  · rintro ⟨m, hm⟩
    rw [key m hm]

/-- C5 witness: `N=100000, E=3, C=74088` — the cube root of 74088 is 42, the
byte 0x2A is the ASCII asterisk, so the decoded message is that one byte. -/
theorem solveRSA_small_exponent_witness :
    SolveRSA ⟨some 100000, some 3, some 74088⟩ =
      ⟨true, "RSA Small Exponent (e=3)", [42]⟩ := by
  have h := (solveRSA_small_exponent_correct 100000 3 74088 (by norm_num)
    (by norm_num)).2 42 (by norm_num)
  rw [h]
  have hb : bigIntToString 42 = [42] := by
    rw [bigIntToString, bytesBE]
    norm_num
    rw [bytesBE]
    norm_num
  rw [hb]
  have hs : "RSA Small Exponent (e=" ++ toString 3 ++ ")" = "RSA Small Exponent (e=3)" := by
    rfl
  rw [hs]

set_option maxRecDepth 100000 in
/-- C2 counterexample: the input byte `0x85` followed by "n=5 e=3 c=8" has a
leading byte exactly matching the configured "PGP Message" signature, and all
three RSA parameters parse from the same input; the identification label is
"RSA Challenge Data", not the file-signature name — the RSA override applies
to step 1 as well, refuting the claim. -/
theorem magic_rsa_override_cex :
    magicMatches (133 :: strCP "n=5 e=3 c=8") ("PGP Message", [133]) = true ∧
    ("PGP Message", [133]) ∈ magicBytesList ∧
    ParseRSA (133 :: strCP "n=5 e=3 c=8") = ⟨some 5, some 3, some 8⟩ ∧
    identifyWith magicBytesList hashPatternsList encodingChecksList
      (133 :: strCP "n=5 e=3 c=8") = "RSA Challenge Data" ∧
    "RSA Challenge Data" ≠ "File (PGP Message)" := by
  refine ⟨by decide, by decide, by decide, by decide, by decide⟩

/-- C2 amended: the "RSA Challenge Data" override applies after, and
regardless of, all of steps 1-3: whenever all three of N, E, C parse, the
identification label is "RSA Challenge Data" even when the leading bytes
match a configured magic-byte signature — for every iteration order of the
three tables. -/
theorem rsa_override_total (magicOrder : List (String × List Nat))
    (hashOrder : List (String × HashPat)) (encOrder : List (String × EncPat))
    (data : List Nat)
    (hN : (ParseRSA data).N.isSome = true)
    (hE : (ParseRSA data).E.isSome = true)
    (hC : (ParseRSA data).C.isSome = true) :
    identifyWith magicOrder hashOrder encOrder data = "RSA Challenge Data" := by
  unfold identifyWith
  simp [hN, hE, hC]

set_option maxRecDepth 100000 in
/-- C2 amended witness: the counterexample input, under the source-order
tables, is labelled "RSA Challenge Data". -/
theorem rsa_override_total_witness :
    identifyWith magicBytesList hashPatternsList encodingChecksList
      (133 :: strCP "n=5 e=3 c=8") = "RSA Challenge Data" :=
  rsa_override_total magicBytesList hashPatternsList encodingChecksList
    (133 :: strCP "n=5 e=3 c=8") (by decide) (by decide) (by decide)

set_option maxRecDepth 100000 in
/-- C1 counterexample: `Config.HashPatterns` is a Go map, so its iteration
order varies between runs; on the 32-hex-character input `"000…0"` (which
matches both the MD5 and the NTLM pattern) the order that visits MD5 first
reports "Hash (MD5)" while the order that visits NTLM first — a permutation
of the same configured entries — reports "Hash (NTLM)": two runs on the same
input bytes can produce different identification labels. -/
theorem identification_order_dependent_cex :
    List.Perm
      [("NTLM", HashPat.hexLen 32), ("MD5", HashPat.hexLen 32),
       ("SHA1", HashPat.hexLen 40), ("SHA256", HashPat.hexLen 64),
       ("SHA512", HashPat.hexLen 128), ("RIPEMD-160", HashPat.hexLen 40),
       ("Bcrypt", HashPat.bcrypt), ("Argon2", HashPat.argon2)]
      hashPatternsList ∧
    identifyWith magicBytesList hashPatternsList encodingChecksList
      (List.replicate 32 48) = "Hash (MD5)" ∧
    identifyWith magicBytesList
      [("NTLM", HashPat.hexLen 32), ("MD5", HashPat.hexLen 32),
       ("SHA1", HashPat.hexLen 40), ("SHA256", HashPat.hexLen 64),
       ("SHA512", HashPat.hexLen 128), ("RIPEMD-160", HashPat.hexLen 40),
       ("Bcrypt", HashPat.bcrypt), ("Argon2", HashPat.argon2)]
      encodingChecksList (List.replicate 32 48) = "Hash (NTLM)" ∧
    "Hash (MD5)" ≠ "Hash (NTLM)" := by
  refine ⟨?_, by decide, by decide, by decide⟩
  decide

/-- C1 amended: identification is deterministic only up to the map iteration
order: for any two iteration orders (permutations of each other) of the
magic-byte, hash-pattern and encoding tables, the labels agree whenever at
most one entry of each family matches the input; for ambiguous inputs (such
as a 32-hex string matching both MD5 and NTLM) the reported name is the first
in the per-run iteration order and can differ between runs. -/
theorem identification_deterministic_of_unique_match
    (m1 m2 : List (String × List Nat)) (h1 h2 : List (String × HashPat))
    (e1 e2 : List (String × EncPat)) (data : List Nat)
    (hpm : m1.Perm m2) (hph : h1.Perm h2) (hpe : e1.Perm e2)
    (hum : m1.countP (fun p => magicMatches data p) ≤ 1)
    (huh : h1.countP (fun p => hashMatches data p) ≤ 1)
    (hue : e1.countP (fun p => encMatches data p) ≤ 1) :
    identifyWith m1 h1 e1 data = identifyWith m2 h2 e2 data := by
  unfold identifyWith
  rw [find?_eq_of_perm_of_countP_le_one _ hpm hum,
      find?_eq_of_perm_of_countP_le_one _ hph huh,
      find?_eq_of_perm_of_countP_le_one _ hpe hue]

set_option maxRecDepth 100000 in
/-- C1 amended witness: a Bcrypt-shaped input matches exactly one pattern in
each family, so the source order and the NTLM-first order agree on it. -/
theorem identification_deterministic_witness :
    identifyWith magicBytesList hashPatternsList encodingChecksList
        (strCP "$2a$" ++ List.replicate 56 120) =
      identifyWith magicBytesList
        [("NTLM", HashPat.hexLen 32), ("MD5", HashPat.hexLen 32),
         ("SHA1", HashPat.hexLen 40), ("SHA256", HashPat.hexLen 64),
         ("SHA512", HashPat.hexLen 128), ("RIPEMD-160", HashPat.hexLen 40),
         ("Bcrypt", HashPat.bcrypt), ("Argon2", HashPat.argon2)]
        encodingChecksList (strCP "$2a$" ++ List.replicate 56 120) :=
  identification_deterministic_of_unique_match
    magicBytesList magicBytesList hashPatternsList _ encodingChecksList
    encodingChecksList (strCP "$2a$" ++ List.replicate 56 120)
    (List.Perm.refl _) (by decide) (List.Perm.refl _)
    (by decide) (by decide) (by decide)
